import Mathlib

/-!
# Installation orchestrator of `setup_server.py`: a shallow embedding

This file embeds the long-running installation orchestrator of
`setup_server.py`: the global `installation_state` dictionary and the other
module globals (the bounded log buffer, the shared SSE `progress_queue`,
the `current_process` handle), the `add_log` helper, the streaming loop and
line classifier of `run_installation`, and the `/install`, `/stop`, `/logs`
and `/progress` handlers of `SetupHandler`.

Modelling conventions:
* Python strings become `String`; the regular expressions of the source are
  written out as character-level functions with the same matching behaviour.
* Wall-clock readings (`time.time()`, `time.strftime`) are supplied as
  explicit parameters, since the code only stores them.
* The float expression `int(completed_items / total_items * 90)` is embedded
  as an exact simulation of binary64 arithmetic (`pyIntDivMul90`): correctly
  rounded division, correctly rounded multiplication by 90, truncation. Its
  results can differ from the exact floor `completed_items * 90 /
  total_items` (62 rather than 63 at 7 of 10 items, for example).
* Concurrency is modelled as a sequential interleaving of atomic
  transitions (`Step`): HTTP handlers, and the phases of a supervised run.
-/

namespace SetupServer

/-! ## Python string primitives -/

/-- Whitespace characters recognised by the Python `str.strip` family. -/
def isPySpace (c : Char) : Bool :=
  c == ' ' || c == '\t' || c == '\n' || c == '\r' || c == '\x0b' || c == '\x0c'

/-- Python `str.rstrip()`: drop trailing whitespace. -/
def pyRstrip (s : String) : String :=
  ⟨(s.data.reverse.dropWhile isPySpace).reverse⟩

/-- Python `str.strip()`: drop leading and trailing whitespace. -/
def pyStrip (s : String) : String :=
  ⟨((s.data.dropWhile isPySpace).reverse.dropWhile isPySpace).reverse⟩

/-- Does the needle (first argument) occur at the start of the haystack? -/
def charsStartWith : List Char → List Char → Bool
  | [], _ => true
  | _ :: _, [] => false
  | n :: ns, h :: hs => n == h && charsStartWith ns hs

/-- Does the needle occur anywhere in the haystack? -/
def charsContain (hay needle : List Char) : Bool :=
  charsStartWith needle hay ||
    match hay with
    | [] => false
    | _ :: rest => charsContain rest needle

/-- the Python substring operator `needle in hay`. -/
def strContains (hay needle : String) : Bool :=
  charsContain hay.data needle.data

/-! ## The regular expressions of `run_installation` -/

/-- Consume the parameter characters of an ANSI escape, `[0-9;]*m`: the
remainder after the closing `m`, or `none` when the pattern does not match. -/
def ansiBody : List Char → Option (List Char)
  | [] => none
  | c :: rest =>
    if c = 'm' then some rest
    else if c.isDigit || c = ';' then ansiBody rest
    else none

/-- Fuel-indexed worker for `stripAnsi`. Each step consumes at least one
character, so fuel equal to the length of the list never runs out. -/
def stripAnsiAux : Nat → List Char → List Char
  | 0, _ => []
  | _ + 1, [] => []
  | fuel + 1, c :: rest =>
    if c = '\x1b' then
      match rest with
      | '[' :: rest2 =>
        match ansiBody rest2 with
        | some rest3 => stripAnsiAux fuel rest3
        | none => c :: stripAnsiAux fuel rest
      | _ => c :: stripAnsiAux fuel rest
    else c :: stripAnsiAux fuel rest

/-- `re.sub` of the ANSI colour-code pattern with the empty string. -/
def stripAnsi (s : String) : String :=
  ⟨stripAnsiAux s.data.length s.data⟩

/-- Numeric value of a run of decimal digits. -/
def digitsToNat (ds : List Char) : Nat :=
  ds.foldl (fun n c => n * 10 + (c.toNat - 48)) 0

/-- The search for an opening parenthesis directly followed by at least one
digit, capturing the digit run: `re.search` of the item-count pattern. -/
def findParenNum : List Char → Option Nat
  | [] => none
  | c :: rest =>
    if c = '(' then
      match rest.takeWhile Char.isDigit with
      | [] => findParenNum rest
      | ds => some (digitsToNat ds)
    else findParenNum rest

/-- Characters after the first occurrence of `m`, if any. -/
def afterChar (m : Char) : List Char → Option (List Char)
  | [] => none
  | c :: rest => if c = m then some rest else afterChar m rest

/-- Greedy optional group consuming the word `Downloading` plus at least one
whitespace character, backtracking when nothing would remain for the name. -/
def dropDownloadingWord (cs : List Char) : List Char :=
  if charsStartWith "Downloading".data cs then
    match cs.drop 11 with
    | [] => cs
    | c :: rest =>
      if isPySpace c then
        match (c :: rest).dropWhile isPySpace with
        | [] => cs
        | r2 => r2
      else cs
  else cs

/-- The lazy name group gives up exactly one trailing ellipsis, and only when
the candidate is longer than the ellipsis itself. -/
def stripTrailingDots (cs : List Char) : List Char :=
  if 3 < cs.length then
    if charsStartWith "...".data cs.reverse then cs.take (cs.length - 3)
    else cs
  else cs

/-- The file name captured by the download-arrow pattern: the text after the
arrow with leading whitespace, an optional `Downloading ` word and one
trailing ellipsis removed, finally stripped of surrounding whitespace. -/
def extractDownloadName (clean : String) : Option String :=
  match afterChar '↓' clean.data with
  | none => none
  | some rest =>
    match dropDownloadingWord (rest.dropWhile isPySpace) with
    | [] => if rest.isEmpty then none else some ""
    | r2 => some (pyStrip ⟨stripTrailingDots r2⟩)

/-! ## Binary64 arithmetic of the progress formula

The progress update evaluates `int(completed_items / total_items * 90)` in
Python, i.e. in IEEE binary64: the quotient is correctly rounded to 53
significant bits (nearest, ties to even), the product with 90 is correctly
rounded again, and `int` truncates. The simulation below reproduces this
exactly, with an unbounded exponent instead of the IEEE range: results agree
with CPython for every quotient below the binary64 overflow threshold
(gradual-underflow quotients lose low bits in CPython but both sides floor
to 0 after the product); past the overflow threshold CPython raises
`OverflowError`, which would abort the supervised run through its exception
path. -/

/-- Fuel-indexed bit length; fuel equal to the number itself suffices. -/
def bitlenAux : Nat → Nat → Nat
  | 0, _ => 0
  | fuel + 1, n => if n = 0 then 0 else bitlenAux fuel (n / 2) + 1

/-- Number of binary digits: zero for zero, otherwise one more than the
floor of the base-two logarithm. -/
def bitlen (n : Nat) : Nat := bitlenAux n n

/-- Round the rational `q + r / B` (with `r < B`) to the nearest integer,
ties to even. -/
def rhe (q r B : Nat) : Nat :=
  if B < 2 * r then q + 1
  else if 2 * r < B then q
  else if q % 2 = 0 then q else q + 1

/-- The scaling exponent of the rounding: the bit length of the integer part
of `a * 2 ^ bitlen b / b`, which places the scaled quotient in
`[2 ^ 52, 2 ^ 53)`. -/
def rndL (a b : Nat) : Nat := bitlen (a * 2 ^ bitlen b / b)

/-- The rounded 53-bit mantissa of `a / b`: the scaled quotient
`a * 2 ^ (53 + bitlen b) / (b * 2 ^ rndL a b)` rounded to the nearest
integer with ties to even, using the exact remainder. -/
def rndM (a b : Nat) : Nat :=
  rhe (a * 2 ^ (53 + bitlen b) / (b * 2 ^ rndL a b))
    (a * 2 ^ (53 + bitlen b) % (b * 2 ^ rndL a b))
    (b * 2 ^ rndL a b)

/-- The exponent going with `rndM`. -/
def rndE (a b : Nat) : Int := (rndL a b : Int) - bitlen b - 53

/-- Round the positive rational `a / b` to 53 significant bits, nearest and
ties to even: the result `(m, e)` denotes `m * 2 ^ e` with
`2 ^ 52 ≤ m < 2 ^ 53` (a mantissa rounded up to `2 ^ 53` is renormalised). -/
def rnd (a b : Nat) : Nat × Int :=
  if a = 0 then (0, 0)
  else if rndM a b = 2 ^ 53 then (2 ^ 52, rndE a b + 1)
  else (rndM a b, rndE a b)

/-- A mantissa-exponent pair as a fraction of natural numbers. -/
def ratOf (p : Nat × Int) : Nat × Nat :=
  if 0 ≤ p.2 then (p.1 * 2 ^ p.2.toNat, 1) else (p.1, 2 ^ (-p.2).toNat)

/-- Binary64 multiplication by the exact constant 90: round the exact
product to 53 bits again. -/
def mul90 (p : Nat × Int) : Nat × Int :=
  rnd (90 * (ratOf p).1) (ratOf p).2

/-- Truncation of a nonnegative mantissa-exponent value to an integer,
Python's `int()` on a nonnegative float. -/
def floorDouble (p : Nat × Int) : Nat :=
  if 0 ≤ p.2 then p.1 * 2 ^ p.2.toNat else p.1 / 2 ^ (-p.2).toNat

/-- The Python expression `int(c / t * 90)` evaluated in binary64, for
natural `c` and `t`. The `t = 0` case never arises in the classifier, which
guards the update with a positivity test. -/
def pyIntDivMul90 (c t : Nat) : Nat :=
  if t = 0 then 0 else if c = 0 then 0
  else floorDouble (mul90 (rnd c t))

/-- The rational value denoted by a mantissa-exponent pair. -/
def val (p : Nat × Int) : ℚ := (p.1 : ℚ) * 2 ^ p.2

/-! ## State -/

/-- Events placed on the shared progress queue, mirroring the JSON payloads
the server writes to its SSE subscribers. -/
inductive Event where
  | log (message : String)
  | status (status : String)
  | progress (progress : Nat) (current_task : String)
  | error (error : String)
deriving DecidableEq

/-- The module globals: the `installation_state` dictionary, the log buffer,
the shared SSE queue, and whether `current_process` currently holds a child
process handle. -/
structure ServerState where
  status : String
  progress : Nat
  current_task : String
  started_at : Option Nat
  completed_at : Option Nat
  error : Option String
  log_buffer : List String
  progress_queue : List Event
  processRunning : Bool
deriving DecidableEq

/-- The module-level initial values of the globals. -/
def initialState : ServerState :=
  { status := "idle", progress := 0, current_task := "", started_at := none,
    completed_at := none, error := none, log_buffer := [],
    progress_queue := [], processRunning := false }

/-- The loop-local counters of the streaming loop of `run_installation`. -/
structure LoopState where
  total_items : Nat
  completed_items : Nat
deriving DecidableEq

/-- The `progress_queue.put` call. -/
def queuePut (st : ServerState) (e : Event) : ServerState :=
  { st with progress_queue := st.progress_queue ++ [e] }

/-- A formatted log-buffer entry. -/
def logEntry (ts message : String) : String :=
  "[" ++ ts ++ "] " ++ message

/-- The function `add_log`: append the timestamped entry, evict the oldest
entry when the buffer exceeds 1000 lines, and put a log event on the queue. -/
def add_log (st : ServerState) (ts message : String) : ServerState :=
  let buf := st.log_buffer ++ [logEntry ts message]
  let buf := if 1000 < buf.length then buf.drop 1 else buf
  queuePut { st with log_buffer := buf } (Event.log message)

/-! ## The line classifier and streaming loop -/

/-- The branch ladder of the streaming loop, applied to the raw line and its
ANSI-free form; yields the new progress, current task and loop counters.
The first two branches inspect the raw line, the last two the cleaned one,
exactly as in the source. -/
def classify (line clean_line : String) (progress : Nat) (task : String)
    (loop : LoopState) : Nat × String × LoopState :=
  if strContains line "Downloading Models" then
    (progress, "Downloading models...",
      match findParenNum line.data with
      | some n => { loop with total_items := n }
      | none => loop)
  else if strContains line "Installing Custom Nodes" then
    (progress, "Installing custom nodes...",
      match findParenNum line.data with
      | some n => { loop with total_items := n }
      | none => loop)
  else if strContains clean_line "✓" || strContains clean_line "Downloaded" ||
      strContains clean_line "Installed" then
    (if 0 < loop.total_items then
        min 95 (pyIntDivMul90 (loop.completed_items + 1) loop.total_items)
      else progress,
      task,
      { loop with completed_items := loop.completed_items + 1 })
  else if strContains clean_line "↓" then
    match extractDownloadName clean_line with
    | some name => (progress, "Downloading " ++ name ++ "...", loop)
    | none => (progress, task, loop)
  else (progress, task, loop)

/-- One iteration of the streaming loop: rstrip the line, skip it when empty,
log the ANSI-free text, classify it, and put a progress event carrying the
updated progress and task on the queue. -/
def processLine (st : ServerState) (loop : LoopState) (ts rawLine : String) :
    ServerState × LoopState :=
  if pyRstrip rawLine = "" then (st, loop)
  else
    let clean := stripAnsi (pyRstrip rawLine)
    let r := classify (pyRstrip rawLine) clean st.progress st.current_task loop
    (queuePut { add_log st ts clean with progress := r.1, current_task := r.2.1 }
      (Event.progress r.1 r.2.1), r.2.2)

/-- The state updates of `run_installation` before the read loop: reset the
installation state, log the two startup lines, publish the running status,
and record the spawned child process. -/
def runStart (st : ServerState) (models : List String) (ts : String)
    (now : Nat) : ServerState :=
  let st := { st with
    status := "running", progress := 0,
    current_task := "Starting installation...",
    started_at := some now, completed_at := none, error := none }
  let st := add_log st ts
    ("Starting installation for models: " ++ String.intercalate ", " models)
  let st := queuePut st (Event.status "running")
  let st := add_log st ts
    ("Running: python setup_remote.py --models " ++ String.intercalate "," models)
  { st with processRunning := true }

/-- The read loop folded over the output lines of the child. -/
def runLoop (st : ServerState) (loop : LoopState) (ts : String)
    (lines : List String) : ServerState × LoopState :=
  lines.foldl (fun p l => processLine p.1 p.2 ts l) (st, loop)

/-- After end-of-stream: `current_process.wait()` returns `exitCode`, which
the code never inspects; the handle is dropped, and the completion block runs
whenever the status is still `running`, i.e. the job was not cancelled. The
source drops the handle before the status check; dropping it does not touch
the status, so the drop is folded into both branches here. -/
def runFinish (st : ServerState) (exitCode : Int) (ts : String)
    (now : Nat) : ServerState :=
  if st.status = "running" then
    let st := { st with
      status := "completed", progress := 100,
      current_task := "Installation complete!",
      completed_at := some now, processRunning := false }
    let st := add_log st ts "Installation completed successfully!"
    queuePut st (Event.status "completed")
  else { st with processRunning := false }

/-- The exception branch of `run_installation`. -/
def runError (st : ServerState) (msg ts : String) : ServerState :=
  let st := { st with status := "error", error := some msg }
  let st := add_log st ts ("Error: " ++ msg)
  let st := queuePut st (Event.error msg)
  { st with processRunning := false }

/-- A whole uninterrupted run: start, stream all lines, then the exit path
with the exit code of the child. -/
def run_installation (st : ServerState) (models : List String) (ts : String)
    (now : Nat) (lines : List String) (exitCode : Int) (ts2 : String)
    (now2 : Nat) : ServerState :=
  runFinish (runLoop (runStart st models ts now) ⟨0, 0⟩ ts lines).1
    exitCode ts2 now2

/-! ## The HTTP surface -/

/-- An HTTP answer: the status code and the distinguishing body field. -/
structure HttpResponse where
  code : Nat
  body : String
deriving DecidableEq

/-- The parsed body of `POST /install`: malformed JSON, or the models list
together with the three optional tokens. -/
inductive InstallBody where
  | malformed
  | valid (models : List String) (hf_token civitai_token github_token : String)
deriving DecidableEq

/-- The `/install` branch of `do_POST`, up to the start of the worker thread:
reject when a job is running or the request is invalid, otherwise clear the
log buffer, drain the shared queue, and answer `started`. -/
def do_POST_install (st : ServerState) (body : InstallBody) :
    ServerState × HttpResponse :=
  if st.status = "running" then
    (st, { code := 409, body := "Installation already in progress" })
  else
    match body with
    | .malformed => (st, { code := 400, body := "Invalid JSON" })
    | .valid models _ _ _ =>
      if models = [] then (st, { code := 400, body := "No models specified" })
      else
        ({ st with log_buffer := [], progress_queue := [] },
          { code := 200, body := "started" })

/-- The `/stop` branch of `do_POST`: terminate and drop the child process if
one is held, set the status to `idle` and the task to `Cancelled`, log the
cancellation, and answer 200 unconditionally. -/
def do_POST_stop (st : ServerState) (ts : String) :
    ServerState × HttpResponse :=
  let st := { st with processRunning := false }
  let st := { st with status := "idle", current_task := "Cancelled" }
  let st := add_log st ts "Installation cancelled by user"
  (st, { code := 200, body := "stopped" })

/-- The `/logs` branch of `do_GET`: a snapshot of the log buffer. -/
def do_GET_logs (st : ServerState) : List String :=
  st.log_buffer

/-- One blocking `progress_queue.get` of an SSE handler. The queue is the
single shared one, so a delivered event is removed for every other
subscriber as well. -/
def sseGet (st : ServerState) : Option Event × ServerState :=
  match st.progress_queue with
  | [] => (none, st)
  | e :: rest => (some e, { st with progress_queue := rest })

/-! ## The sequential interleaving model -/

/-- Atomic transitions of the sequential interleaving model: the HTTP
handlers and the supervisor phases of a run. A line step carries no
constraint on the current status: the reader thread of a terminated run
keeps draining the buffered output of its own child regardless of what the
shared status says, so a stale line of a stopped run can be processed after
a later run has already started or even completed. -/
inductive Step : ServerState → ServerState → Prop where
  | install (st : ServerState) (body : InstallBody) :
      Step st (do_POST_install st body).1
  | start (st : ServerState) (models : List String) (ts : String) (now : Nat) :
      Step st (runStart st models ts now)
  | line (st : ServerState) (loop : LoopState) (ts rawLine : String) :
      Step st (processLine st loop ts rawLine).1
  | finish (st : ServerState) (exitCode : Int) (ts : String) (now : Nat) :
      Step st (runFinish st exitCode ts now)
  | stop (st : ServerState) (ts : String) :
      Step st (do_POST_stop st ts).1
  | fail (st : ServerState) (msg ts : String) :
      Step st (runError st msg ts)

/-- States reachable from the module-initial state. -/
inductive Reachable : ServerState → Prop where
  | init : Reachable initialState
  | step {s t : ServerState} : Reachable s → Step s t → Reachable t

/-! ## Vocabulary for the claims -/

/-- A decimal digit immediately followed by a percent sign. -/
def hasPercentTokenAux : List Char → Bool
  | c :: d :: rest => (c.isDigit && d == '%') || hasPercentTokenAux (d :: rest)
  | _ => false

/-- Does the line carry an explicit percentage token? -/
def hasPercentToken (s : String) : Bool :=
  hasPercentTokenAux s.data

/-- Coherence between the stored progress and the loop counters: the progress
is at most the value the counters justify under the program's own binary64
progress formula, or is still zero. -/
def progressCoherent (progress : Nat) (loop : LoopState) : Prop :=
  progress ≤ min 95 (pyIntDivMul90 loop.completed_items loop.total_items) ∨
    progress = 0

/-- A server state whose log buffer is exactly at capacity. -/
def fullState : ServerState :=
  { initialState with log_buffer := List.replicate 1000 "x" }

/-! ## Lemmas about the binary64 simulation -/

theorem bitlenAux_spec : ∀ (fuel n : Nat), n ≤ fuel → 1 ≤ n →
    2 ^ (bitlenAux fuel n - 1) ≤ n ∧ n < 2 ^ bitlenAux fuel n := by
  intro fuel
  induction fuel with
  | zero => intro n hn h1; omega
  | succ fuel ih =>
    intro n hn h1
    show 2 ^ ((if n = 0 then 0 else bitlenAux fuel (n / 2) + 1) - 1) ≤ n ∧
      n < 2 ^ (if n = 0 then 0 else bitlenAux fuel (n / 2) + 1)
    rw [if_neg (by omega)]
    by_cases h2 : n = 1
    · subst h2
      have hz : bitlenAux fuel 0 = 0 := by cases fuel <;> rfl
      norm_num [hz]
    · have hhalf : 1 ≤ n / 2 := by omega
      have hfuel : n / 2 ≤ fuel := by omega
      obtain ⟨hlo, hhi⟩ := ih (n / 2) hfuel hhalf
      have hk1 : 1 ≤ bitlenAux fuel (n / 2) := by
        by_contra hcon
        have : bitlenAux fuel (n / 2) = 0 := by omega
        rw [this] at hhi
        simp at hhi
        omega
      set k := bitlenAux fuel (n / 2) with hk
      have hsplit : 2 ^ k = 2 * 2 ^ (k - 1) := by
        conv_lhs => rw [show k = (k - 1) + 1 by omega]
        rw [pow_succ]
        ring
      constructor
      · calc 2 ^ (k + 1 - 1) = 2 * 2 ^ (k - 1) := by
              rw [show k + 1 - 1 = k by omega, hsplit]
          _ ≤ 2 * (n / 2) := by omega
          _ ≤ n := by omega
      · calc n ≤ 2 * (n / 2) + 1 := by omega
          _ < 2 * 2 ^ k := by omega
          _ = 2 ^ (k + 1) := by rw [pow_succ]; ring

theorem bitlen_spec (n : Nat) (h : 1 ≤ n) :
    2 ^ (bitlen n - 1) ≤ n ∧ n < 2 ^ bitlen n :=
  bitlenAux_spec n n le_rfl h

theorem bitlen_pos (n : Nat) (h : 1 ≤ n) : 1 ≤ bitlen n := by
  obtain ⟨h1, h2⟩ := bitlen_spec n h
  by_contra hcon
  have hz : bitlen n = 0 := by omega
  rw [hz] at h2
  simp at h2
  omega

theorem rhe_bounds (q r B : Nat) : q ≤ rhe q r B ∧ rhe q r B ≤ q + 1 := by
  unfold rhe
  repeat' split
  all_goals omega

theorem rhe_mono (q r B q2 r2 B2 : Nat) (hB : 0 < B) (hB2 : 0 < B2)
    (hr : r < B) (hr2 : r2 < B2)
    (hle : (q * B + r) * B2 ≤ (q2 * B2 + r2) * B) :
    rhe q r B ≤ rhe q2 r2 B2 := by
  have hq : q ≤ q2 := by
    have h1 : q * (B * B2) < (q2 + 1) * (B * B2) := by nlinarith
    have h2 : q < q2 + 1 := lt_of_mul_lt_mul_right h1 (Nat.zero_le _)
    omega
  rcases Nat.lt_or_ge q q2 with hlt | hge
  · have ha := (rhe_bounds q r B).2
    have hb := (rhe_bounds q2 r2 B2).1
    omega
  · have hqq : q = q2 := le_antisymm hq hge
    subst hqq
    have hrr : r * B2 ≤ r2 * B := by nlinarith
    unfold rhe
    repeat' split
    all_goals first
      | omega
      | (exfalso; nlinarith [hrr, hB, hB2])

theorem div_bounds (x y : Nat) (hy : 0 < y) :
    y * (x / y) ≤ x ∧ x < y * (x / y) + y := by
  have h1 := Nat.div_add_mod x y
  have h2 := Nat.mod_lt x hy
  omega

theorem rndM_bounds (a b : Nat) (ha : 1 ≤ a) (hb : 1 ≤ b) :
    2 ^ 52 ≤ rndM a b ∧ rndM a b ≤ 2 ^ 53 := by
  have hJ := bitlen_spec b hb
  set J := bitlen b with hJdef
  set n := a * 2 ^ J / b with hndef
  have hn1 : 1 ≤ n := by
    rw [hndef]
    rw [Nat.one_le_div_iff (by omega)]
    calc b ≤ 2 ^ J := le_of_lt hJ.2
      _ ≤ a * 2 ^ J := Nat.le_mul_of_pos_left _ ha
  have hL := bitlen_spec n hn1
  have hL1 : 1 ≤ bitlen n := bitlen_pos n hn1
  set L := bitlen n with hLdef
  have hdb := div_bounds (a * 2 ^ J) b (by omega)
  set A := a * 2 ^ (53 + J) with hAdef
  set B := b * 2 ^ L with hBdef
  have hBpos : 0 < B := by positivity
  have hAeq : A = 2 ^ 53 * (a * 2 ^ J) := by
    rw [hAdef, pow_add]
    ring
  have hqlo : 2 ^ 52 * B ≤ A := by
    have hL2 : (2 : Nat) ^ L = 2 * 2 ^ (L - 1) := by
      conv_lhs => rw [show L = (L - 1) + 1 by omega]
      rw [pow_succ]
      ring
    have hb1 : b * 2 ^ (L - 1) ≤ b * n := Nat.mul_le_mul_left b hL.1
    have hb2 : b * n ≤ a * 2 ^ J := hdb.1
    calc 2 ^ 52 * B = 2 ^ 53 * (b * 2 ^ (L - 1)) := by
          rw [hBdef, hL2]
          ring
      _ ≤ 2 ^ 53 * (b * n) := Nat.mul_le_mul_left _ hb1
      _ ≤ 2 ^ 53 * (a * 2 ^ J) := Nat.mul_le_mul_left _ hb2
      _ = A := hAeq.symm
  have hqhi : A < 2 ^ 53 * B := by
    have hb3 : a * 2 ^ J < b * (n + 1) := by
      calc a * 2 ^ J < b * (a * 2 ^ J / b) + b := hdb.2
        _ = b * (a * 2 ^ J / b + 1) := by ring
        _ = b * (n + 1) := by rw [hndef]
    have hb4 : b * (n + 1) ≤ b * 2 ^ L := Nat.mul_le_mul_left b (by omega)
    have h53 : (0 : Nat) < 2 ^ 53 := by positivity
    calc A = 2 ^ 53 * (a * 2 ^ J) := hAeq
      _ < 2 ^ 53 * (b * (n + 1)) := mul_lt_mul_of_pos_left hb3 h53
      _ ≤ 2 ^ 53 * (b * 2 ^ L) := Nat.mul_le_mul_left _ hb4
      _ = 2 ^ 53 * B := by rw [hBdef]
  have hq1 : 2 ^ 52 ≤ A / B := (Nat.le_div_iff_mul_le hBpos).mpr hqlo
  have hq2 : A / B < 2 ^ 53 := (Nat.div_lt_iff_lt_mul hBpos).mpr hqhi
  have hm := rhe_bounds (A / B) (A % B) B
  have hmeq : rndM a b = rhe (A / B) (A % B) B := rfl
  omega



theorem rnd_range (a b : Nat) (ha : 1 ≤ a) (hb : 1 ≤ b) :
    (2 : ℚ) ^ ((rndL a b : Int) - bitlen b - 1) ≤ (a : ℚ) / b ∧
      (a : ℚ) / b < (2 : ℚ) ^ ((rndL a b : Int) - bitlen b) := by
  have hJ := bitlen_spec b hb
  have hn1 : 1 ≤ a * 2 ^ bitlen b / b := by
    rw [Nat.one_le_div_iff (by omega)]
    calc b ≤ 2 ^ bitlen b := le_of_lt hJ.2
      _ ≤ a * 2 ^ bitlen b := Nat.le_mul_of_pos_left _ ha
  have hL := bitlen_spec (a * 2 ^ bitlen b / b) hn1
  have hL1 : 1 ≤ rndL a b := bitlen_pos _ hn1
  have hdb := div_bounds (a * 2 ^ bitlen b) b (by omega)
  have hbq : (0 : ℚ) < (b : ℚ) := by exact_mod_cast (by omega : 0 < b)
  have hJq : (0 : ℚ) < ((2 ^ bitlen b : Nat) : ℚ) := by positivity
  constructor
  · have hx : (2 : ℚ) ^ ((rndL a b : Int) - bitlen b - 1)
        = ((2 ^ (rndL a b - 1) : Nat) : ℚ) / ((2 ^ bitlen b : Nat) : ℚ) := by
      have he : (rndL a b : Int) - bitlen b - 1
          = ((rndL a b - 1 : Nat) : Int) - ((bitlen b : Nat) : Int) := by
        omega
      rw [he, zpow_sub₀ (by norm_num : (2 : ℚ) ≠ 0)]
      push_cast
      rw [zpow_natCast, zpow_natCast]
    rw [hx, div_le_div_iff₀ hJq hbq]
    have hnat : 2 ^ (rndL a b - 1) * b ≤ a * 2 ^ bitlen b := by
      calc 2 ^ (rndL a b - 1) * b ≤ (a * 2 ^ bitlen b / b) * b :=
            Nat.mul_le_mul_right b hL.1
        _ = b * (a * 2 ^ bitlen b / b) := by ring
        _ ≤ a * 2 ^ bitlen b := hdb.1
    exact_mod_cast hnat
  · have hx : (2 : ℚ) ^ ((rndL a b : Int) - bitlen b)
        = ((2 ^ rndL a b : Nat) : ℚ) / ((2 ^ bitlen b : Nat) : ℚ) := by
      have he : (rndL a b : Int) - bitlen b
          = ((rndL a b : Nat) : Int) - ((bitlen b : Nat) : Int) := by omega
      rw [he, zpow_sub₀ (by norm_num : (2 : ℚ) ≠ 0)]
      push_cast
      rw [zpow_natCast, zpow_natCast]
    rw [hx, div_lt_div_iff₀ hbq hJq]
    have hnat : a * 2 ^ bitlen b < 2 ^ rndL a b * b := by
      calc a * 2 ^ bitlen b < b * (a * 2 ^ bitlen b / b) + b := hdb.2
        _ = b * (a * 2 ^ bitlen b / b + 1) := by ring
        _ ≤ b * 2 ^ rndL a b := by
            have hLr : a * 2 ^ bitlen b / b < 2 ^ rndL a b := hL.2
            exact Nat.mul_le_mul_left b (by omega)
        _ = 2 ^ rndL a b * b := by ring
    exact_mod_cast hnat

theorem rnd_val (a b : Nat) (ha : 1 ≤ a) :
    val (rnd a b) = (rndM a b : ℚ) * (2 : ℚ) ^ rndE a b := by
  unfold rnd val
  rw [if_neg (by omega : ¬ a = 0)]
  split
  · next hm =>
    rw [hm]
    push_cast
    rw [zpow_add₀ (by norm_num : (2 : ℚ) ≠ 0)]
    norm_num
    ring
  · rfl

theorem rnd_val_bounds (a b : Nat) (ha : 1 ≤ a) (hb : 1 ≤ b) :
    (2 : ℚ) ^ ((rndL a b : Int) - bitlen b - 1) ≤ val (rnd a b) ∧
      val (rnd a b) ≤ (2 : ℚ) ^ ((rndL a b : Int) - bitlen b) := by
  rw [rnd_val a b ha]
  obtain ⟨hm1, hm2⟩ := rndM_bounds a b ha hb
  have hz : (0 : ℚ) ≤ (2 : ℚ) ^ rndE a b := by positivity
  have h52 : ((2 ^ 52 : Nat) : ℚ) * (2 : ℚ) ^ rndE a b
      = (2 : ℚ) ^ ((rndL a b : Int) - bitlen b - 1) := by
    rw [Nat.cast_pow, Nat.cast_ofNat, ← zpow_natCast (2 : ℚ) 52,
      ← zpow_add₀ (by norm_num : (2 : ℚ) ≠ 0)]
    congr 1
    unfold rndE
    omega
  have h53 : ((2 ^ 53 : Nat) : ℚ) * (2 : ℚ) ^ rndE a b
      = (2 : ℚ) ^ ((rndL a b : Int) - bitlen b) := by
    rw [Nat.cast_pow, Nat.cast_ofNat, ← zpow_natCast (2 : ℚ) 53,
      ← zpow_add₀ (by norm_num : (2 : ℚ) ≠ 0)]
    congr 1
    unfold rndE
    omega
  constructor
  · calc (2 : ℚ) ^ ((rndL a b : Int) - bitlen b - 1)
        = ((2 ^ 52 : Nat) : ℚ) * (2 : ℚ) ^ rndE a b := h52.symm
      _ ≤ (rndM a b : ℚ) * (2 : ℚ) ^ rndE a b := by
          have hc : ((2 ^ 52 : Nat) : ℚ) ≤ (rndM a b : ℚ) := by exact_mod_cast hm1
          exact mul_le_mul_of_nonneg_right hc hz
  · calc (rndM a b : ℚ) * (2 : ℚ) ^ rndE a b
        ≤ ((2 ^ 53 : Nat) : ℚ) * (2 : ℚ) ^ rndE a b := by
          have hc : (rndM a b : ℚ) ≤ ((2 ^ 53 : Nat) : ℚ) := by exact_mod_cast hm2
          exact mul_le_mul_of_nonneg_right hc hz
      _ = (2 : ℚ) ^ ((rndL a b : Int) - bitlen b) := h53



theorem rndM_mono (a b a2 b2 : Nat) (ha : 1 ≤ a) (hb : 1 ≤ b) (ha2 : 1 ≤ a2)
    (hb2 : 1 ≤ b2)
    (hLJ : rndL a b + bitlen b2 = rndL a2 b2 + bitlen b)
    (hab : a * b2 ≤ a2 * b) :
    rndM a b ≤ rndM a2 b2 := by
  have hB1 : 0 < b * 2 ^ rndL a b := by positivity
  have hB2 : 0 < b2 * 2 ^ rndL a2 b2 := by positivity
  have hcross : (a * 2 ^ (53 + bitlen b)) * (b2 * 2 ^ rndL a2 b2)
      ≤ (a2 * 2 ^ (53 + bitlen b2)) * (b * 2 ^ rndL a b) := by
    have e1 : (a * 2 ^ (53 + bitlen b)) * (b2 * 2 ^ rndL a2 b2)
        = (a * b2) * 2 ^ (53 + bitlen b + rndL a2 b2) := by
      rw [pow_add 2 (53 + bitlen b) (rndL a2 b2)]
      ring
    have e2 : (a2 * 2 ^ (53 + bitlen b2)) * (b * 2 ^ rndL a b)
        = (a2 * b) * 2 ^ (53 + bitlen b2 + rndL a b) := by
      rw [pow_add 2 (53 + bitlen b2) (rndL a b)]
      ring
    have eexp : 53 + bitlen b + rndL a2 b2 = 53 + bitlen b2 + rndL a b := by
      omega
    rw [e1, e2, eexp]
    exact Nat.mul_le_mul_right _ hab
  have hd1 : (a * 2 ^ (53 + bitlen b)) / (b * 2 ^ rndL a b) * (b * 2 ^ rndL a b)
      + (a * 2 ^ (53 + bitlen b)) % (b * 2 ^ rndL a b)
      = a * 2 ^ (53 + bitlen b) := by
    rw [mul_comm]
    exact Nat.div_add_mod _ _
  have hd2 : (a2 * 2 ^ (53 + bitlen b2)) / (b2 * 2 ^ rndL a2 b2) * (b2 * 2 ^ rndL a2 b2)
      + (a2 * 2 ^ (53 + bitlen b2)) % (b2 * 2 ^ rndL a2 b2)
      = a2 * 2 ^ (53 + bitlen b2) := by
    rw [mul_comm]
    exact Nat.div_add_mod _ _
  exact rhe_mono _ _ _ _ _ _ hB1 hB2 (Nat.mod_lt _ hB1) (Nat.mod_lt _ hB2)
    (by rw [hd1, hd2]; exact hcross)

theorem rnd_mono (a b a2 b2 : Nat) (ha : 1 ≤ a) (hb : 1 ≤ b) (ha2 : 1 ≤ a2)
    (hb2 : 1 ≤ b2) (h : (a : ℚ) / b ≤ (a2 : ℚ) / b2) :
    val (rnd a b) ≤ val (rnd a2 b2) := by
  have hr1 := rnd_range a b ha hb
  have hr2 := rnd_range a2 b2 ha2 hb2
  have hee : (rndL a b : Int) - bitlen b ≤ (rndL a2 b2 : Int) - bitlen b2 := by
    have hx : (2 : ℚ) ^ ((rndL a b : Int) - bitlen b - 1)
        < (2 : ℚ) ^ ((rndL a2 b2 : Int) - bitlen b2) :=
      lt_of_le_of_lt (le_trans hr1.1 h) hr2.2
    have := (zpow_lt_zpow_iff_right₀ (by norm_num : (1 : ℚ) < 2)).mp hx
    omega
  rcases eq_or_lt_of_le hee with heq | hlt
  · have hLJ : rndL a b + bitlen b2 = rndL a2 b2 + bitlen b := by omega
    have hbq : (0 : ℚ) < (b : ℚ) := by exact_mod_cast (by omega : 0 < b)
    have hbq2 : (0 : ℚ) < (b2 : ℚ) := by exact_mod_cast (by omega : 0 < b2)
    have hab : a * b2 ≤ a2 * b := by
      have := (div_le_div_iff₀ hbq hbq2).mp h
      exact_mod_cast this
    have hm := rndM_mono a b a2 b2 ha hb ha2 hb2 hLJ hab
    have hE : rndE a b = rndE a2 b2 := by
      unfold rndE
      omega
    rw [rnd_val a b ha, rnd_val a2 b2 ha2, hE]
    have hc : (rndM a b : ℚ) ≤ (rndM a2 b2 : ℚ) := by exact_mod_cast hm
    exact mul_le_mul_of_nonneg_right hc (by positivity)
  · calc val (rnd a b) ≤ (2 : ℚ) ^ ((rndL a b : Int) - bitlen b) :=
          (rnd_val_bounds a b ha hb).2
      _ ≤ (2 : ℚ) ^ ((rndL a2 b2 : Int) - bitlen b2 - 1) :=
          zpow_le_zpow_right₀ (by norm_num : (1 : ℚ) ≤ 2) (by omega)
      _ ≤ val (rnd a2 b2) := (rnd_val_bounds a2 b2 ha2 hb2).1



theorem ratOf_spec (p : Nat × Int) :
    1 ≤ (ratOf p).2 ∧ (((ratOf p).1 : ℚ)) / (((ratOf p).2 : ℚ)) = val p := by
  unfold ratOf val
  split
  · next he =>
    constructor
    · exact le_refl 1
    · show ((p.1 * 2 ^ p.2.toNat : Nat) : ℚ) / ((1 : Nat) : ℚ) = (p.1 : ℚ) * 2 ^ p.2
      rw [Nat.cast_one, div_one, Nat.cast_mul, Nat.cast_pow, Nat.cast_ofNat,
        ← zpow_natCast (2 : ℚ) p.2.toNat]
      congr 1
      congr 1
      omega
  · next he =>
    constructor
    · exact Nat.one_le_two_pow
    · show ((p.1 : Nat) : ℚ) / ((2 ^ (-p.2).toNat : Nat) : ℚ) = (p.1 : ℚ) * 2 ^ p.2
      rw [Nat.cast_pow, Nat.cast_ofNat, ← zpow_natCast (2 : ℚ) (-p.2).toNat,
        div_eq_mul_inv, ← zpow_neg]
      congr 1
      congr 1
      omega

theorem ratOf_fst (p : Nat × Int) (h : 1 ≤ p.1) : 1 ≤ (ratOf p).1 := by
  unfold ratOf
  split
  · calc 1 = 1 * 1 := by ring
      _ ≤ p.1 * 2 ^ p.2.toNat := Nat.mul_le_mul h Nat.one_le_two_pow
  · exact h

theorem mul90_mono (p p2 : Nat × Int) (h1 : 1 ≤ p.1) (h12 : 1 ≤ p2.1)
    (h : val p ≤ val p2) : val (mul90 p) ≤ val (mul90 p2) := by
  obtain ⟨hd, hv⟩ := ratOf_spec p
  obtain ⟨hd2, hv2⟩ := ratOf_spec p2
  apply rnd_mono
  · calc 1 ≤ (ratOf p).1 := ratOf_fst p h1
      _ ≤ 90 * (ratOf p).1 := Nat.le_mul_of_pos_left _ (by omega)
  · exact hd
  · calc 1 ≤ (ratOf p2).1 := ratOf_fst p2 h12
      _ ≤ 90 * (ratOf p2).1 := Nat.le_mul_of_pos_left _ (by omega)
  · exact hd2
  · push_cast
    rw [mul_div_assoc, mul_div_assoc]
    have hq : ((ratOf p).1 : ℚ) / ((ratOf p).2 : ℚ)
        ≤ ((ratOf p2).1 : ℚ) / ((ratOf p2).2 : ℚ) := by
      rw [hv, hv2]
      exact h
    exact mul_le_mul_of_nonneg_left hq (by norm_num)

theorem floorDouble_le (p : Nat × Int) :
    ((floorDouble p : Nat) : ℚ) ≤ val p ∧ val p < (floorDouble p : Nat) + 1 := by
  unfold floorDouble val
  split
  · next he =>
    have heq : ((p.1 * 2 ^ p.2.toNat : Nat) : ℚ) = (p.1 : ℚ) * 2 ^ p.2 := by
      rw [Nat.cast_mul, Nat.cast_pow, Nat.cast_ofNat,
        ← zpow_natCast (2 : ℚ) p.2.toNat]
      congr 1
      congr 1
      omega
    constructor
    · rw [heq]
    · rw [← heq]
      norm_num
  · next he =>
    have hk : (0 : ℚ) < ((2 ^ (-p.2).toNat : Nat) : ℚ) := by positivity
    have hval : (p.1 : ℚ) * 2 ^ p.2 = (p.1 : ℚ) / ((2 ^ (-p.2).toNat : Nat) : ℚ) := by
      rw [Nat.cast_pow, Nat.cast_ofNat, ← zpow_natCast (2 : ℚ) (-p.2).toNat,
        div_eq_mul_inv, ← zpow_neg]
      congr 1
      congr 1
      omega
    constructor
    · rw [hval]
      exact Nat.cast_div_le
    · rw [hval, div_lt_iff₀ hk]
      have hnat : p.1 < (p.1 / 2 ^ (-p.2).toNat + 1) * 2 ^ (-p.2).toNat := by
        have := div_bounds p.1 (2 ^ (-p.2).toNat) (by positivity)
        nlinarith [this.1, this.2]
      calc (p.1 : ℚ) < (((p.1 / 2 ^ (-p.2).toNat + 1) * 2 ^ (-p.2).toNat : Nat) : ℚ) := by
            exact_mod_cast hnat
        _ = ((p.1 / 2 ^ (-p.2).toNat : Nat) + 1) * ((2 ^ (-p.2).toNat : Nat) : ℚ) := by
            push_cast
            ring

theorem floorDouble_mono (p p2 : Nat × Int) (h : val p ≤ val p2) :
    floorDouble p ≤ floorDouble p2 := by
  have h1 := floorDouble_le p
  have h2 := floorDouble_le p2
  have hx : ((floorDouble p : Nat) : ℚ) < (floorDouble p2 : Nat) + 1 :=
    lt_of_le_of_lt (le_trans h1.1 h) h2.2
  have : (floorDouble p : Nat) < floorDouble p2 + 1 := by exact_mod_cast hx
  omega

theorem rnd_fst_pos (a b : Nat) (ha : 1 ≤ a) (hb : 1 ≤ b) : 1 ≤ (rnd a b).1 := by
  unfold rnd
  rw [if_neg (by omega : ¬ a = 0)]
  split
  · exact Nat.one_le_two_pow
  · calc 1 ≤ 2 ^ 52 := Nat.one_le_two_pow
      _ ≤ rndM a b := (rndM_bounds a b ha hb).1

theorem pyIntDivMul90_mono (c t : Nat) (ht : 1 ≤ t) :
    pyIntDivMul90 c t ≤ pyIntDivMul90 (c + 1) t := by
  unfold pyIntDivMul90
  rw [if_neg (by omega : ¬ t = 0), if_neg (by omega : ¬ t = 0),
    if_neg (by omega : ¬ c + 1 = 0)]
  by_cases hc : c = 0
  · rw [if_pos hc]
    exact Nat.zero_le _
  · rw [if_neg hc]
    apply floorDouble_mono
    apply mul90_mono
    · exact rnd_fst_pos c t (by omega) ht
    · exact rnd_fst_pos (c + 1) t (by omega) ht
    · apply rnd_mono c t (c + 1) t (by omega) ht (by omega) ht
      have htq : (0 : ℚ) < (t : ℚ) := by exact_mod_cast (by omega : 0 < t)
      rw [div_le_div_iff₀ htq htq]
      have : c * t ≤ (c + 1) * t := Nat.mul_le_mul_right t (by omega)
      exact_mod_cast this

/-! ## Preservation lemmas -/

/-- A line step never changes the status field. -/
theorem processLine_status (st : ServerState) (loop : LoopState)
    (ts raw : String) : ((processLine st loop ts raw).1).status = st.status := by
  unfold processLine
  split
  · rfl
  · rfl

/-- A line step never changes the error field. -/
theorem processLine_error (st : ServerState) (loop : LoopState)
    (ts raw : String) : ((processLine st loop ts raw).1).error = st.error := by
  unfold processLine
  split
  · rfl
  · rfl

/-- The whole read loop never changes the status field. -/
theorem runLoop_status (lines : List String) :
    ∀ (st : ServerState) (loop : LoopState) (ts : String),
      ((runLoop st loop ts lines).1).status = st.status := by
  induction lines with
  | nil => intro st loop ts; rfl
  | cons l ls ih =>
    intro st loop ts
    have h2 : ((runLoop st loop ts (l :: ls)).1).status
        = ((runLoop (processLine st loop ts l).1 (processLine st loop ts l).2
            ts ls).1).status := rfl
    rw [h2, ih, processLine_status]

/-- The whole read loop never changes the error field. -/
theorem runLoop_error (lines : List String) :
    ∀ (st : ServerState) (loop : LoopState) (ts : String),
      ((runLoop st loop ts lines).1).error = st.error := by
  induction lines with
  | nil => intro st loop ts; rfl
  | cons l ls ih =>
    intro st loop ts
    have h2 : ((runLoop st loop ts (l :: ls)).1).error
        = ((runLoop (processLine st loop ts l).1 (processLine st loop ts l).2
            ts ls).1).error := rfl
    rw [h2, ih, processLine_error]

/-- The classifier either keeps the progress or caps it at 95. -/
theorem classify_progress_cases (line clean : String) (p : Nat) (t : String)
    (loop : LoopState) :
    (classify line clean p t loop).1 = p ∨
      (classify line clean p t loop).1 ≤ 95 := by
  unfold classify
  split
  · exact Or.inl rfl
  · split
    · exact Or.inl rfl
    · split
      · split
        · exact Or.inr (Nat.min_le_left 95 _)
        · exact Or.inl rfl
      · split
        · split
          · exact Or.inl rfl
          · exact Or.inl rfl
        · exact Or.inl rfl

/-- A line step keeps the progress within the 0 to 100 range. -/
theorem processLine_progress_le (st : ServerState) (loop : LoopState)
    (ts raw : String) (h : st.progress ≤ 100) :
    ((processLine st loop ts raw).1).progress ≤ 100 := by
  unfold processLine
  split
  · exact h
  · show (classify (pyRstrip raw) (stripAnsi (pyRstrip raw)) st.progress
      st.current_task loop).1 ≤ 100
    rcases classify_progress_cases (pyRstrip raw) (stripAnsi (pyRstrip raw))
      st.progress st.current_task loop with hc | hc
    · rw [hc]; exact h
    · exact le_trans hc (by omega)

/-- The install handler never changes the status or progress fields. -/
theorem do_POST_install_preserves (st : ServerState) (body : InstallBody) :
    ((do_POST_install st body).1).status = st.status ∧
      ((do_POST_install st body).1).progress = st.progress := by
  unfold do_POST_install
  split
  · exact ⟨rfl, rfl⟩
  · split
    · exact ⟨rfl, rfl⟩
    · split
      · exact ⟨rfl, rfl⟩
      · exact ⟨rfl, rfl⟩

/-- When the job was not cancelled, the end-of-stream block declares success. -/
theorem runFinish_of_running (st : ServerState) (e : Int) (ts : String)
    (now : Nat) (hs : st.status = "running") :
    (runFinish st e ts now).status = "completed" ∧
      (runFinish st e ts now).progress = 100 ∧
      (runFinish st e ts now).completed_at = some now := by
  unfold runFinish
  split
  · exact ⟨rfl, rfl, rfl⟩
  · next hneg => exact absurd hs hneg

/-- When the status is no longer running, the end-of-stream block only drops
the process handle. -/
theorem runFinish_of_not_running (st : ServerState) (e : Int) (ts : String)
    (now : Nat) (hs : ¬ st.status = "running") :
    runFinish st e ts now = { st with processRunning := false } := by
  unfold runFinish
  split
  · next hpos => exact absurd hpos hs
  · rfl

/-- One append keeps the buffer within its 1000-entry capacity. -/
theorem add_log_le (st : ServerState) (ts msg : String)
    (h : st.log_buffer.length ≤ 1000) :
    (add_log st ts msg).log_buffer.length ≤ 1000 := by
  unfold add_log queuePut
  show (if 1000 < (st.log_buffer ++ [logEntry ts msg]).length
      then (st.log_buffer ++ [logEntry ts msg]).drop 1
      else st.log_buffer ++ [logEntry ts msg]).length ≤ 1000
  split
  · next hgt =>
    rw [List.length_drop, List.length_append]
    simp only [List.length_singleton]
    omega
  · next hle =>
    rw [List.length_append] at hle ⊢
    simp only [List.length_singleton] at hle ⊢
    omega

/-- An append to a buffer exactly at capacity evicts the oldest entry and
keeps the order of the rest. -/
theorem add_log_evict (st : ServerState) (ts msg : String)
    (h : st.log_buffer.length = 1000) :
    (add_log st ts msg).log_buffer
      = st.log_buffer.drop 1 ++ [logEntry ts msg] := by
  unfold add_log queuePut
  show (if 1000 < (st.log_buffer ++ [logEntry ts msg]).length
      then (st.log_buffer ++ [logEntry ts msg]).drop 1
      else st.log_buffer ++ [logEntry ts msg])
      = st.log_buffer.drop 1 ++ [logEntry ts msg]
  rw [if_pos]
  · exact List.drop_append_of_le_length (by omega)
  · rw [List.length_append]
    simp only [List.length_singleton]
    omega

/-- Any sequence of appends from a buffer within capacity stays within it. -/
theorem add_log_fold_le (items : List (String × String)) :
    ∀ st : ServerState, st.log_buffer.length ≤ 1000 →
      ((items.foldl (fun s p => add_log s p.1 p.2) st)).log_buffer.length
        ≤ 1000 := by
  induction items with
  | nil => intro st h; exact h
  | cons it its ih => intro st h; exact ih _ (add_log_le st it.1 it.2 h)

/-- Monotonicity of the classifier under a fixed phase total: away from the
phase-header branches, a coherent progress value never decreases, and
coherence is preserved. -/
theorem classify_mono (line clean : String) (p : Nat) (t : String)
    (loop : LoopState) (hJ : progressCoherent p loop)
    (h1 : strContains line "Downloading Models" = false)
    (h2 : strContains line "Installing Custom Nodes" = false) :
    p ≤ (classify line clean p t loop).1 ∧
      progressCoherent (classify line clean p t loop).1
        (classify line clean p t loop).2.2 := by
  unfold classify
  simp only [h1, h2, Bool.false_eq_true, if_false]
  split
  · split
    · next htot =>
      constructor
      · rcases hJ with hle | h0
        · refine le_trans hle (min_le_min (le_refl 95) ?_)
          exact pyIntDivMul90_mono loop.completed_items loop.total_items
            (by omega)
        · rw [h0]; exact Nat.zero_le _
      · exact Or.inl (le_refl _)
    · next htot =>
      have ht0 : loop.total_items = 0 := by omega
      constructor
      · exact le_refl p
      · refine Or.inr ?_
        rcases hJ with hle | h0
        · rw [ht0] at hle
          have hz : pyIntDivMul90 loop.completed_items 0 = 0 := rfl
          rw [hz] at hle
          simp only [Nat.min_zero, Nat.le_zero] at hle
          exact hle
        · exact h0
  · split
    · split
      · exact ⟨le_refl p, hJ⟩
      · exact ⟨le_refl p, hJ⟩
    · exact ⟨le_refl p, hJ⟩

/-- The end-of-stream block never touches the error field. -/
theorem runFinish_error (st : ServerState) (e : Int) (ts : String)
    (now : Nat) : (runFinish st e ts now).error = st.error := by
  unfold runFinish
  split
  · rfl
  · rfl

/-! ## Claim C1 -/

/-- Claim C1 counterexample: the child exits with code 1 after partial
output, yet the final status is `completed` (not `error`), the progress is
forced to 100 rather than retaining its pre-exit value 45, and the error
field stays empty. -/
theorem c1_counterexample :
    (run_installation initialState ["Wan2.2"] "t" 0
      ["Downloading Models (2 items)", "✓ Downloaded file1"] 1 "u" 9).status
      = "completed" ∧
    (run_installation initialState ["Wan2.2"] "t" 0
      ["Downloading Models (2 items)", "✓ Downloaded file1"] 1 "u" 9).status
      ≠ "error" ∧
    (run_installation initialState ["Wan2.2"] "t" 0
      ["Downloading Models (2 items)", "✓ Downloaded file1"] 1 "u" 9).progress
      = 100 ∧
    (run_installation initialState ["Wan2.2"] "t" 0
      ["Downloading Models (2 items)", "✓ Downloaded file1"] 1 "u" 9).error
      = none := by
  refine ⟨rfl, ?_, rfl, rfl⟩
  decide

/-- Claim C1, amended: on end-of-stream the supervisor does not inspect the
exit code; an uninterrupted run ends with status `completed`, progress
forced to 100, `completed_at` recorded and the error field empty, for every
exit code, and the final state does not depend on the exit code at all.
Status `error` can only arise from an exception inside the supervisor. -/
theorem c1_exit_code_ignored (st : ServerState) (models : List String)
    (ts : String) (now : Nat) (lines : List String) (exitCode : Int)
    (ts2 : String) (now2 : Nat) :
    run_installation st models ts now lines exitCode ts2 now2
      = run_installation st models ts now lines 0 ts2 now2 ∧
    (run_installation st models ts now lines exitCode ts2 now2).status
      = "completed" ∧
    (run_installation st models ts now lines exitCode ts2 now2).progress
      = 100 ∧
    (run_installation st models ts now lines exitCode ts2 now2).completed_at
      = some now2 ∧
    (run_installation st models ts now lines exitCode ts2 now2).error
      = none := by
  have hs : ((runLoop (runStart st models ts now) ⟨0, 0⟩ ts lines).1).status
      = "running" := by
    rw [runLoop_status]
    rfl
  have he : ((runLoop (runStart st models ts now) ⟨0, 0⟩ ts lines).1).error
      = none := by
    rw [runLoop_error]
    rfl
  have hfin := runFinish_of_running
    ((runLoop (runStart st models ts now) ⟨0, 0⟩ ts lines).1)
    exitCode ts2 now2 hs
  refine ⟨rfl, hfin.1, hfin.2.1, hfin.2.2, ?_⟩
  show (runFinish ((runLoop (runStart st models ts now) ⟨0, 0⟩ ts lines).1)
    exitCode ts2 now2).error = none
  rw [runFinish_error]
  exact he

/-! ## Claim C2 -/

/-- Claim C2 counterexample: a stop with no job active answers 200, not the
claimed 400 error, and a stop during a run moves the status to `idle`, not
to the claimed `cancelled`. -/
theorem c2_counterexample :
    initialState.status ≠ "running" ∧
    (do_POST_stop initialState "t").2.code = 200 ∧
    (do_POST_stop initialState "t").2.code ≠ 400 ∧
    (do_POST_stop (runStart initialState ["Wan2.2"] "t" 0) "u").1.status
      = "idle" ∧
    (do_POST_stop (runStart initialState ["Wan2.2"] "t" 0) "u").1.status
      ≠ "cancelled" := by
  refine ⟨by decide, rfl, by decide, rfl, by decide⟩

/-- Claim C2, amended: `POST /stop` always succeeds with 200 and the body
`stopped`, whether or not a job is active; it drops the child process (so no
child is running afterwards), sets the status to `idle` rather than
`cancelled`, and sets the current task to `Cancelled`. -/
theorem c2_stop_always_succeeds (st : ServerState) (ts : String) :
    (do_POST_stop st ts).2 = { code := 200, body := "stopped" } ∧
    (do_POST_stop st ts).1.status = "idle" ∧
    (do_POST_stop st ts).1.current_task = "Cancelled" ∧
    (do_POST_stop st ts).1.processRunning = false := by
  exact ⟨rfl, rfl, rfl, rfl⟩

/-! ## Claim C3 -/

/-- Claim C3 counterexample: with a terminal status event published to the
single shared queue and two subscribers reading it, the first get delivers
the event and the second finds the queue empty — the second subscriber never
receives the terminal event, so the two do not both receive it once. -/
theorem c3_counterexample :
    (sseGet (queuePut initialState (Event.status "completed"))).1
      = some (Event.status "completed") ∧
    (sseGet (sseGet (queuePut initialState
      (Event.status "completed"))).2).1 = none := by
  exact ⟨rfl, rfl⟩

/-- Claim C3, amended: events are published to one shared FIFO queue, not to
per-subscriber queues; a sole consumer receives the published events in
publish order, and after the deliveries the queue is empty, so every event
is delivered to at most one consumer overall. -/
theorem c3_shared_queue_fifo (st : ServerState) (e₁ e₂ : Event)
    (h : st.progress_queue = []) :
    (sseGet (queuePut (queuePut st e₁) e₂)).1 = some e₁ ∧
    (sseGet (sseGet (queuePut (queuePut st e₁) e₂)).2).1 = some e₂ ∧
    ((sseGet (sseGet (queuePut (queuePut st e₁) e₂)).2).2).progress_queue
      = [] := by
  simp [queuePut, sseGet, h]

/-- Witness for the amended claim C3 at a concrete publish sequence. -/
theorem c3_shared_queue_fifo_witness :
    (sseGet (queuePut (queuePut initialState (Event.log "a"))
      (Event.status "completed"))).1 = some (Event.log "a") ∧
    (sseGet (sseGet (queuePut (queuePut initialState (Event.log "a"))
      (Event.status "completed"))).2).1 = some (Event.status "completed") ∧
    ((sseGet (sseGet (queuePut (queuePut initialState (Event.log "a"))
      (Event.status "completed"))).2).2).progress_queue = [] :=
  c3_shared_queue_fifo initialState (Event.log "a")
    (Event.status "completed") rfl

/-! ## Claim C5 -/

/-- Claim C5: a `POST /install` while a job is running is rejected with the
conflict response and leaves the whole server state unchanged. -/
theorem c5_start_conflict (st : ServerState) (body : InstallBody)
    (h : st.status = "running") :
    do_POST_install st body
      = (st, { code := 409, body := "Installation already in progress" }) := by
  unfold do_POST_install
  rw [if_pos h]

/-- Witness for claim C5 at a freshly started run. -/
theorem c5_start_conflict_witness :
    do_POST_install (runStart initialState ["Wan2.2"] "t" 0)
      (InstallBody.valid ["ZIT"] "" "" "")
      = (runStart initialState ["Wan2.2"] "t" 0,
        { code := 409, body := "Installation already in progress" }) :=
  c5_start_conflict (runStart initialState ["Wan2.2"] "t" 0)
    (InstallBody.valid ["ZIT"] "" "" "") rfl

/-! ## Claim C4 -/

/-- Claim C4 counterexample: during a single run with the status `running`
throughout, two phases of two and ten items make the progress fall from 90
to 27 across two successive classified lines, because the completed-item
counter is not reset when a phase header raises the total. -/
theorem c4_counterexample :
    ((runLoop (runStart initialState ["Wan2.2"] "t" 0) ⟨0, 0⟩ "t"
      ["Downloading Models (2 items)", "✓ a", "✓ b",
        "Installing Custom Nodes (10 nodes)"]).1).status = "running" ∧
    ((runLoop (runStart initialState ["Wan2.2"] "t" 0) ⟨0, 0⟩ "t"
      ["Downloading Models (2 items)", "✓ a", "✓ b",
        "Installing Custom Nodes (10 nodes)"]).1).progress = 90 ∧
    ((runLoop (runStart initialState ["Wan2.2"] "t" 0) ⟨0, 0⟩ "t"
      ["Downloading Models (2 items)", "✓ a", "✓ b",
        "Installing Custom Nodes (10 nodes)", "✓ c"]).1).progress = 27 ∧
    ((runLoop (runStart initialState ["Wan2.2"] "t" 0) ⟨0, 0⟩ "t"
      ["Downloading Models (2 items)", "✓ a", "✓ b",
        "Installing Custom Nodes (10 nodes)", "✓ c"]).1).progress
      < ((runLoop (runStart initialState ["Wan2.2"] "t" 0) ⟨0, 0⟩ "t"
      ["Downloading Models (2 items)", "✓ a", "✓ b",
        "Installing Custom Nodes (10 nodes)"]).1).progress := by
  refine ⟨rfl, rfl, rfl, by decide⟩

/-- Claim C4, amended: across classified lines that are not phase headers
the progress never decreases, provided the stored progress is coherent with
the loop counters (which holds along any run); only a phase-header line
that raises the total can make a later progress value smaller, because the
completed-item counter is not reset on a phase change. -/
theorem c4_mono_within_phase (st : ServerState) (loop : LoopState)
    (ts raw : String) (hJ : progressCoherent st.progress loop)
    (h1 : strContains (pyRstrip raw) "Downloading Models" = false)
    (h2 : strContains (pyRstrip raw) "Installing Custom Nodes" = false) :
    st.progress ≤ ((processLine st loop ts raw).1).progress ∧
      progressCoherent ((processLine st loop ts raw).1).progress
        ((processLine st loop ts raw).2) := by
  unfold processLine
  split
  · exact ⟨le_refl _, hJ⟩
  · exact classify_mono (pyRstrip raw) (stripAnsi (pyRstrip raw)) st.progress
      st.current_task loop hJ h1 h2

/-- Witness for the amended claim C4 at a concrete completion-marker line. -/
theorem c4_mono_within_phase_witness :
    initialState.progress
      ≤ ((processLine initialState ⟨4, 1⟩ "t" "✓ done").1).progress ∧
    progressCoherent ((processLine initialState ⟨4, 1⟩ "t" "✓ done").1).progress
      ((processLine initialState ⟨4, 1⟩ "t" "✓ done").2) :=
  c4_mono_within_phase initialState ⟨4, 1⟩ "t" "✓ done"
    (Or.inr rfl) (by decide) (by decide)

/-! ## Claim C6 -/

/-- Claim C6 counterexample: a reachable interleaving in which the status is
`completed` while the progress is 27, not 100. Run one starts, a stop
request sets the status to `idle`, a second install is accepted and run two
starts and completes with progress 100; then the reader thread of run one
processes a line still buffered from its terminated child, with its own
loop counters, and lowers the progress while the status stays `completed`. -/
theorem c6_counterexample :
    Reachable ((processLine
      (runFinish
        (runStart
          ((do_POST_install
            ((do_POST_stop (runStart initialState ["Wan2.2"] "t" 0) "u").1)
            (InstallBody.valid ["ZIT"] "" "" "")).1)
          ["ZIT"] "v" 10)
        0 "w" 20)
      ⟨10, 2⟩ "x" "✓ stale").1) ∧
    ((processLine
      (runFinish
        (runStart
          ((do_POST_install
            ((do_POST_stop (runStart initialState ["Wan2.2"] "t" 0) "u").1)
            (InstallBody.valid ["ZIT"] "" "" "")).1)
          ["ZIT"] "v" 10)
        0 "w" 20)
      ⟨10, 2⟩ "x" "✓ stale").1).status = "completed" ∧
    ((processLine
      (runFinish
        (runStart
          ((do_POST_install
            ((do_POST_stop (runStart initialState ["Wan2.2"] "t" 0) "u").1)
            (InstallBody.valid ["ZIT"] "" "" "")).1)
          ["ZIT"] "v" 10)
        0 "w" 20)
      ⟨10, 2⟩ "x" "✓ stale").1).progress = 27 ∧
    ((processLine
      (runFinish
        (runStart
          ((do_POST_install
            ((do_POST_stop (runStart initialState ["Wan2.2"] "t" 0) "u").1)
            (InstallBody.valid ["ZIT"] "" "" "")).1)
          ["ZIT"] "v" 10)
        0 "w" 20)
      ⟨10, 2⟩ "x" "✓ stale").1).progress ≠ 100 := by
  refine ⟨?_, rfl, rfl, by decide⟩
  exact Reachable.step
    (Reachable.step
      (Reachable.step
        (Reachable.step
          (Reachable.step Reachable.init
            (Step.start initialState ["Wan2.2"] "t" 0))
          (Step.stop _ "u"))
        (Step.install _ (InstallBody.valid ["ZIT"] "" "" "")))
      (Step.start _ ["ZIT"] "v" 10))
    (Step.finish _ 0 "w" 20)
    |>.step (Step.line _ ⟨10, 2⟩ "x" "✓ stale")

/-- Claim C6, amended: in every reachable server state the progress lies in
the 0 to 100 range (the lower bound holds because progress is a natural
number); the transition into `completed` simultaneously forces the progress
to 100, but that equality is not an invariant afterwards, since a stale
reader of a previously stopped run can lower the progress while the status
stays `completed`. -/
theorem c6_progress_bound :
    (∀ st : ServerState, Reachable st → st.progress ≤ 100) ∧
    ∀ (st : ServerState) (e : Int) (ts : String) (now : Nat),
      st.status = "running" →
        (runFinish st e ts now).status = "completed" ∧
        (runFinish st e ts now).progress = 100 := by
  constructor
  · intro st h
    induction h with
    | init => decide
    | @step s t hr hstep ih =>
      cases hstep with
      | install b =>
        have hp := do_POST_install_preserves s b
        rw [hp.2]; exact ih
      | start models ts now =>
        have h0 : (runStart s models ts now).progress = 0 := rfl
        rw [h0]; omega
      | line loop ts raw =>
        exact processLine_progress_le s loop ts raw ih
      | finish e ts now =>
        by_cases hs : s.status = "running"
        · have hq := runFinish_of_running s e ts now hs
          rw [hq.2.1]
        · have hq := runFinish_of_not_running s e ts now hs
          rw [hq]; exact ih
      | stop ts =>
        have hp : ((do_POST_stop s ts).1).progress = s.progress := rfl
        rw [hp]; exact ih
      | fail msg ts =>
        have hp : (runError s msg ts).progress = s.progress := rfl
        rw [hp]; exact ih
  · intro st e ts now hs
    have hq := runFinish_of_running st e ts now hs
    exact ⟨hq.1, hq.2.1⟩

/-- Witness for the amended claim C6 at the initial state and at a freshly
started run. -/
theorem c6_progress_bound_witness :
    initialState.progress ≤ 100 ∧
    (runFinish (runStart initialState ["Wan2.2"] "t" 0) 0 "u" 9).status
      = "completed" ∧
    (runFinish (runStart initialState ["Wan2.2"] "t" 0) 0 "u" 9).progress
      = 100 := by
  refine ⟨c6_progress_bound.1 initialState Reachable.init, ?_, ?_⟩
  · exact (c6_progress_bound.2 (runStart initialState ["Wan2.2"] "t" 0)
      0 "u" 9 rfl).1
  · exact (c6_progress_bound.2 (runStart initialState ["Wan2.2"] "t" 0)
      0 "u" 9 rfl).2

/-! ## Claim C7 -/

/-- Claim C7 counterexample: at seven completions of a ten-item phase the
program sets progress 62, while the exact-floor formula of the claim,
`min(95, floor(completed / total * 90))`, gives 63 — the update is the
binary64 evaluation of `int(completed / total * 90)`, which can fall below
the exact floor. -/
theorem c7_counterexample :
    ((processLine (runStart initialState ["Wan2.2"] "t" 0) ⟨10, 6⟩ "t"
      "✓ Downloaded").1).progress = 62 ∧
    min 95 ((6 + 1) * 90 / 10) = 63 ∧
    ((processLine (runStart initialState ["Wan2.2"] "t" 0) ⟨10, 6⟩ "t"
      "✓ Downloaded").1).progress ≠ min 95 ((6 + 1) * 90 / 10) := by
  refine ⟨rfl, rfl, by decide⟩

/-- Claim C7, amended: the twelve-item scenario holds exactly as stated —
the current task becomes `Downloading models...` and the progress 37, which
here coincides with the exact floor of 5 divided by 12 times 90; in general
a completion-marker line with a known nonzero phase total bumps the counter
and sets the progress to `min(95, int(completed / total * 90))` evaluated
in binary64 floating point, which can fall one below the exact floor, as at
7 of 10 items where it yields 62 rather than 63. -/
theorem c7_classifier_scenario :
    (((runLoop (runStart initialState ["Wan2.2"] "t" 0) ⟨0, 0⟩ "t"
        ["Downloading Models (12 items)", "✓ Downloaded", "✓ Downloaded",
          "✓ Downloaded", "✓ Downloaded", "✓ Downloaded"]).1).current_task
        = "Downloading models..." ∧
      ((runLoop (runStart initialState ["Wan2.2"] "t" 0) ⟨0, 0⟩ "t"
        ["Downloading Models (12 items)", "✓ Downloaded", "✓ Downloaded",
          "✓ Downloaded", "✓ Downloaded", "✓ Downloaded"]).1).progress = 37 ∧
      pyIntDivMul90 5 12 = 37 ∧ (37 : Nat) = 5 * 90 / 12) ∧
    (∀ (st : ServerState) (loop : LoopState) (ts raw : String),
      pyRstrip raw ≠ "" →
      strContains (pyRstrip raw) "Downloading Models" = false →
      strContains (pyRstrip raw) "Installing Custom Nodes" = false →
      (strContains (stripAnsi (pyRstrip raw)) "✓" ||
        strContains (stripAnsi (pyRstrip raw)) "Downloaded" ||
        strContains (stripAnsi (pyRstrip raw)) "Installed") = true →
      0 < loop.total_items →
      ((processLine st loop ts raw).1).progress
        = min 95 (pyIntDivMul90 (loop.completed_items + 1) loop.total_items) ∧
      ((processLine st loop ts raw).2).completed_items
        = loop.completed_items + 1) ∧
    pyIntDivMul90 7 10 = 62 ∧ (7 : Nat) * 90 / 10 = 63 := by
  refine ⟨⟨rfl, rfl, rfl, rfl⟩, ?_, rfl, rfl⟩
  intro st loop ts raw h0 h1 h2 hmark htot
  unfold processLine
  rw [if_neg h0]
  constructor
  · show (classify (pyRstrip raw) (stripAnsi (pyRstrip raw)) st.progress
      st.current_task loop).1
      = min 95 (pyIntDivMul90 (loop.completed_items + 1) loop.total_items)
    unfold classify
    simp only [h1, h2, Bool.false_eq_true, if_false, hmark, if_true]
    rw [if_pos htot]
  · show (classify (pyRstrip raw) (stripAnsi (pyRstrip raw)) st.progress
      st.current_task loop).2.2.completed_items = loop.completed_items + 1
    unfold classify
    simp only [h1, h2, Bool.false_eq_true, if_false, hmark, if_true]

/-- Witness for the general rule of the amended claim C7 at a concrete
state with twelve items of which four are already completed. -/
theorem c7_classifier_scenario_witness :
    ((processLine initialState ⟨12, 4⟩ "t" "✓ Downloaded").1).progress
      = min 95 (pyIntDivMul90 (4 + 1) 12) ∧
    ((processLine initialState ⟨12, 4⟩ "t" "✓ Downloaded").2).completed_items
      = 4 + 1 :=
  c7_classifier_scenario.2.1 initialState ⟨12, 4⟩ "t" "✓ Downloaded"
    (by decide) (by decide) (by decide) (by decide) (by decide)

/-! ## Claim C8 -/

/-- Claim C8 counterexample: the line `Progress: 50%` carries an explicit
percentage token, yet the classifier leaves the progress unchanged at 0 —
in particular it is not scaled into the 10 to 95 band. -/
theorem c8_counterexample :
    hasPercentToken "Progress: 50%" = true ∧
    ((processLine (runStart initialState ["Wan2.2"] "t" 0) ⟨0, 0⟩ "t"
      "Progress: 50%").1).progress
      = (runStart initialState ["Wan2.2"] "t" 0).progress ∧
    ((processLine (runStart initialState ["Wan2.2"] "t" 0) ⟨0, 0⟩ "t"
      "Progress: 50%").1).progress = 0 ∧
    ¬ 10 ≤ ((processLine (runStart initialState ["Wan2.2"] "t" 0) ⟨0, 0⟩ "t"
      "Progress: 50%").1).progress := by
  refine ⟨rfl, rfl, rfl, by decide⟩

/-- Claim C8, amended: the classifier has no percentage rule at all; a line
matching none of the recognised cues — the phase headers, the success glyph,
the words `Downloaded` and `Installed`, and the download arrow — is
log-only: progress, current task and loop counters are left unchanged. A
line whose only cue is a percentage token is such a line. -/
theorem c8_no_percent_rule (st : ServerState) (loop : LoopState)
    (ts raw : String)
    (h1 : strContains (pyRstrip raw) "Downloading Models" = false)
    (h2 : strContains (pyRstrip raw) "Installing Custom Nodes" = false)
    (h3 : strContains (stripAnsi (pyRstrip raw)) "✓" = false)
    (h4 : strContains (stripAnsi (pyRstrip raw)) "Downloaded" = false)
    (h5 : strContains (stripAnsi (pyRstrip raw)) "Installed" = false)
    (h6 : strContains (stripAnsi (pyRstrip raw)) "↓" = false) :
    ((processLine st loop ts raw).1).progress = st.progress ∧
    ((processLine st loop ts raw).1).current_task = st.current_task ∧
    (processLine st loop ts raw).2 = loop := by
  have hc : classify (pyRstrip raw) (stripAnsi (pyRstrip raw)) st.progress
      st.current_task loop = (st.progress, st.current_task, loop) := by
    unfold classify
    simp only [h1, h2, h3, h4, h5, h6, Bool.or_self, Bool.false_or,
      Bool.or_false, Bool.false_eq_true, if_false]
  unfold processLine
  split
  · exact ⟨rfl, rfl, rfl⟩
  · refine ⟨?_, ?_, ?_⟩
    · show (classify (pyRstrip raw) (stripAnsi (pyRstrip raw)) st.progress
        st.current_task loop).1 = st.progress
      rw [hc]
    · show (classify (pyRstrip raw) (stripAnsi (pyRstrip raw)) st.progress
        st.current_task loop).2.1 = st.current_task
      rw [hc]
    · show (classify (pyRstrip raw) (stripAnsi (pyRstrip raw)) st.progress
        st.current_task loop).2.2 = loop
      rw [hc]

/-- Witness for the amended claim C8 at a percentage-only line. -/
theorem c8_no_percent_rule_witness :
    ((processLine initialState ⟨0, 0⟩ "t" "Progress: 50%").1).progress
      = initialState.progress ∧
    ((processLine initialState ⟨0, 0⟩ "t" "Progress: 50%").1).current_task
      = initialState.current_task ∧
    (processLine initialState ⟨0, 0⟩ "t" "Progress: 50%").2 = ⟨0, 0⟩ :=
  c8_no_percent_rule initialState ⟨0, 0⟩ "t" "Progress: 50%"
    (by decide) (by decide) (by decide) (by decide) (by decide) (by decide)

/-! ## Claim C9 -/

/-- Claim C9: one append keeps the log buffer within its 1000-entry
capacity; an append to a buffer exactly at capacity evicts the oldest entry
first and keeps the order of the rest; and any sequence of appends from the
initial state stays within capacity. -/
theorem c9_log_capacity (st : ServerState) (ts msg : String) :
    (st.log_buffer.length ≤ 1000 →
      (add_log st ts msg).log_buffer.length ≤ 1000) ∧
    (st.log_buffer.length = 1000 →
      (add_log st ts msg).log_buffer
        = st.log_buffer.drop 1 ++ [logEntry ts msg]) ∧
    ∀ items : List (String × String),
      ((items.foldl (fun s p => add_log s p.1 p.2)
        initialState)).log_buffer.length ≤ 1000 :=
  ⟨add_log_le st ts msg, add_log_evict st ts msg,
    fun items => add_log_fold_le items initialState (by decide)⟩

/-- Witness for claim C9 at a buffer exactly at capacity. -/
theorem c9_log_capacity_witness :
    (add_log fullState "t" "m").log_buffer.length ≤ 1000 ∧
    (add_log fullState "t" "m").log_buffer
      = fullState.log_buffer.drop 1 ++ [logEntry "t" "m"] ∧
    ((([("t", "a"), ("u", "b")] : List (String × String)).foldl
      (fun s p => add_log s p.1 p.2) initialState)).log_buffer.length
      ≤ 1000 := by
  have hlen : fullState.log_buffer.length = 1000 := by
    show (List.replicate 1000 "x").length = 1000
    rw [List.length_replicate]
  have h := c9_log_capacity fullState "t" "m"
  exact ⟨h.1 (le_of_eq hlen), h.2.1 hlen, h.2.2 [("t", "a"), ("u", "b")]⟩

/-! ## Claim C10 -/

/-- Claim C10: an accepted `POST /install` empties the log buffer and drains
the shared event queue before the new job is launched, answers 200, and
leaves the status untouched; `GET /logs` at that point reports nothing. -/
theorem c10_install_clears (st : ServerState) (models : List String)
    (hf cv gh : String) (hrun : st.status ≠ "running") (hm : models ≠ []) :
    ((do_POST_install st (InstallBody.valid models hf cv gh)).1).log_buffer
      = [] ∧
    ((do_POST_install st
      (InstallBody.valid models hf cv gh)).1).progress_queue = [] ∧
    do_GET_logs ((do_POST_install st (InstallBody.valid models hf cv gh)).1)
      = [] ∧
    ((do_POST_install st (InstallBody.valid models hf cv gh)).2).code = 200 ∧
    ((do_POST_install st (InstallBody.valid models hf cv gh)).1).status
      = st.status := by
  simp [do_POST_install, do_GET_logs, hrun, hm]

/-- Witness for claim C10 at the initial state. -/
theorem c10_install_clears_witness :
    ((do_POST_install initialState
      (InstallBody.valid ["Wan2.2"] "" "" "")).1).log_buffer = [] ∧
    ((do_POST_install initialState
      (InstallBody.valid ["Wan2.2"] "" "" "")).1).progress_queue = [] ∧
    do_GET_logs ((do_POST_install initialState
      (InstallBody.valid ["Wan2.2"] "" "" "")).1) = [] ∧
    ((do_POST_install initialState
      (InstallBody.valid ["Wan2.2"] "" "" "")).2).code = 200 ∧
    ((do_POST_install initialState
      (InstallBody.valid ["Wan2.2"] "" "" "")).1).status
      = initialState.status :=
  c10_install_clears initialState ["Wan2.2"] "" "" ""
    (by decide) (by decide)

end SetupServer
